import Mathlib

/-!
Verification development for the tgif-brain core.

This file gives a shallow embedding, in Lean 4, of the parts of the
repository that the behavioural claims talk about:

* the learning weight store (`src/session_state.py`:
  `update_tool_weight`, `log_tool_use`, `get_weighted_tool_ranking`),
* the keyword need matcher and the Mistral profile classifier
  (`src/preflight.py`: `extract_needs`, `detect_mistral_profile`),
* the conversation hub client (`src/backend_8825/conversation_hub_client.py`:
  `create_conversation`, `close_conversation`, `link_artifact`,
  `list_conversations`, `_update_index`),
* the SSE delivery loop (`src/jh_brain_sse_server.py`: `event_stream`).

Modelling conventions: SQLite tables and JSON documents become
association lists / structures, SQLite REAL and Python float arithmetic
on weights becomes exact rational arithmetic over `ℚ` (all constants in
play are decimal literals), ISO timestamp strings become abstract `ℕ`
clock values supplied by the caller (the code reads the ambient wall
clock; string comparison of ISO timestamps is order-isomorphic to the
numeric comparison), and Python's stable `sort`/`sorted` (Timsort)
becomes a stable insertion sort (`List.insertionSort`), which computes
the same list for any total preorder because stable sorted output is
unique.
-/

namespace TgifBrain

open List

/-! ### Association-list utilities

`setKey l k v` models writing value `v` under key `k` in a keyed store
(an SQLite row upsert target, a JSON file keyed by conversation id, or a
Python dict): the first binding of `k` is replaced, and if `k` is absent
the binding is appended. -/

def lookupKey {κ β : Type} [DecidableEq κ] (l : List (κ × β)) (k : κ) : Option β :=
  match l with
  | [] => none
  | p :: rest => if p.1 = k then some p.2 else lookupKey rest k

def setKey {κ β : Type} [DecidableEq κ] (l : List (κ × β)) (k : κ) (v : β) : List (κ × β) :=
  match l with
  | [] => [(k, v)]
  | p :: rest => if p.1 = k then (k, v) :: rest else p :: setKey rest k v

/-- `eraseKey` models `dict.pop(k, None)`: every binding of `k` is dropped. -/
def eraseKey {κ β : Type} [DecidableEq κ] (l : List (κ × β)) (k : κ) : List (κ × β) :=
  l.filter (fun p => decide (p.1 ≠ k))

theorem lookup_setKey {κ β : Type} [DecidableEq κ] (l : List (κ × β)) (k : κ) (v : β) :
    lookupKey (setKey l k v) k = some v := by
  induction l with
  | nil => simp [setKey, lookupKey]
  | cons p rest ih =>
    by_cases h : p.1 = k
    · simp [setKey, h, lookupKey]
    · simp [setKey, h, lookupKey, ih]

theorem mem_setKey {κ β : Type} [DecidableEq κ] {l : List (κ × β)} {k : κ} {v : β} {x : κ × β}
    (hx : x ∈ setKey l k v) : x = (k, v) ∨ x ∈ l := by
  induction l with
  | nil => simpa [setKey] using hx
  | cons p rest ih =>
    by_cases h : p.1 = k
    · simp only [setKey, h, if_true, mem_cons] at hx
      rcases hx with h1 | h2
      · exact Or.inl h1
      · exact Or.inr (mem_cons_of_mem _ h2)
    · simp only [setKey, h, if_false, mem_cons] at hx
      rcases hx with h1 | h2
      · exact Or.inr (h1 ▸ mem_cons_self _ _)
      · rcases ih h2 with h3 | h4
        · exact Or.inl h3
        · exact Or.inr (mem_cons_of_mem _ h4)

theorem mem_of_lookupKey_eq_some {κ β : Type} [DecidableEq κ]
    {l : List (κ × β)} {k : κ} {v : β} (h : lookupKey l k = some v) : (k, v) ∈ l := by
  induction l with
  | nil => simp [lookupKey] at h
  | cons p rest ih =>
    by_cases hk : p.1 = k
    · simp only [lookupKey, hk, if_true, Option.some.injEq] at h
      have h2 : p = (k, v) := by
        cases p
        simp only [Prod.mk.injEq]
        exact ⟨hk, h⟩
      exact h2 ▸ mem_cons_self _ _
    · simp only [lookupKey, hk, if_false] at h
      exact mem_cons_of_mem _ (ih h)

theorem lookupKey_append_of_none {κ β : Type} [DecidableEq κ]
    {l₁ : List (κ × β)} (l₂ : List (κ × β)) {k : κ} (h : lookupKey l₁ k = none) :
    lookupKey (l₁ ++ l₂) k = lookupKey l₂ k := by
  induction l₁ with
  | nil => simp
  | cons p rest ih =>
    by_cases hk : p.1 = k
    · simp [lookupKey, hk] at h
    · simp only [lookupKey, hk, if_false] at h
      simpa [lookupKey, hk] using ih h

theorem lookup_eraseKey {κ β : Type} [DecidableEq κ] (l : List (κ × β)) (k : κ) :
    lookupKey (eraseKey l k) k = none := by
  induction l with
  | nil => simp [eraseKey, lookupKey]
  | cons p rest ih =>
    by_cases hk : p.1 = k
    · simpa [eraseKey, hk] using ih
    · simpa [eraseKey, lookupKey, hk] using ih

/-! ### A stable sort, descending in a key

`sortByKeyDesc key l` models Python's `l.sort(key=key, reverse=True)` /
`sorted(l, key=key, reverse=True)`: a stable sort putting larger keys
first.  Python's Timsort is stable also with `reverse=True`, and a
stable sort w.r.t. a total preorder is uniquely determined, so the
stable `List.insertionSort` computes the same list. -/

def keyDescRel {α β : Type} (key : α → β) [LinearOrder β] : α → α → Prop :=
  fun a b => key b ≤ key a

instance {α β : Type} (key : α → β) [LinearOrder β] : DecidableRel (keyDescRel key) :=
  fun a b => inferInstanceAs (Decidable (key b ≤ key a))

def sortByKeyDesc {α β : Type} (key : α → β) [LinearOrder β] (l : List α) : List α :=
  l.insertionSort (keyDescRel key)

theorem sortByKeyDesc_perm {α β : Type} (key : α → β) [LinearOrder β] (l : List α) :
    sortByKeyDesc key l ~ l :=
  List.perm_insertionSort _ l

theorem sortByKeyDesc_sorted {α β : Type} (key : α → β) [LinearOrder β] (l : List α) :
    List.Sorted (keyDescRel key) (sortByKeyDesc key l) := by
  haveI : IsTotal α (keyDescRel key) := ⟨fun a b => le_total (key b) (key a)⟩
  haveI : IsTrans α (keyDescRel key) := ⟨fun _ _ _ h1 h2 => le_trans h2 h1⟩
  exact List.sorted_insertionSort _ l

/-- Stability of the sort: for each key value `s`, the elements whose key
is `s` appear in the output in exactly the order in which they appear in
the input. -/
theorem sortByKeyDesc_filter_eq {α β : Type} (key : α → β) [LinearOrder β]
    (l : List α) (s : β) :
    (sortByKeyDesc key l).filter (fun a => decide (key a = s)) =
      l.filter (fun a => decide (key a = s)) := by
  have hkey : ∀ a ∈ l.filter (fun a => decide (key a = s)), key a = s := by
    intro a ha
    have := (mem_filter.mp ha).2
    exact of_decide_eq_true this
  have hpair : (l.filter (fun a => decide (key a = s))).Pairwise (keyDescRel key) := by
    apply pairwise_of_forall_mem_list
    intro a ha b hb
    unfold keyDescRel
    rw [hkey a ha, hkey b hb]
  have hsub : l.filter (fun a => decide (key a = s)) <+ sortByKeyDesc key l :=
    List.sublist_insertionSort hpair (filter_sublist l)
  have hperm : (sortByKeyDesc key l).filter (fun a => decide (key a = s)) ~
      l.filter (fun a => decide (key a = s)) :=
    (sortByKeyDesc_perm key l).filter _
  have hsub2 : l.filter (fun a => decide (key a = s)) <+
      (sortByKeyDesc key l).filter (fun a => decide (key a = s)) := by
    have h1 := hsub.filter (fun a => decide (key a = s))
    rwa [filter_eq_self.mpr (fun a ha => (mem_filter.mp ha).2)] at h1
  exact (hsub2.eq_of_length hperm.length_eq.symm).symm

/-! ### Learning weight store (`src/session_state.py`)

The SQLite table `tool_weights (tool_id PRIMARY KEY, weight, total_uses,
successes, last_used)` becomes an association list keyed by tool id.
`update_tool_weight` embeds the upsert

```
INSERT INTO tool_weights (tool_id, weight, total_uses, successes, last_used)
VALUES (?, 1.0, 1, ?, ?)
ON CONFLICT(tool_id) DO UPDATE SET
    total_uses = total_uses + 1,
    successes = successes + excluded.successes,
    last_used = excluded.last_used,
    weight = CASE WHEN excluded.successes > 0
                  THEN MIN(weight + 0.1, 2.0)
                  ELSE MAX(weight - 0.1, 0.1) END
```

with `excluded.successes = 1 if success else 0`. -/

/-- SQLite's scalar `MIN(a, b)`, written so the kernel can evaluate it. -/
def ratMin (a b : ℚ) : ℚ := if a ≤ b then a else b

/-- SQLite's scalar `MAX(a, b)`, written so the kernel can evaluate it. -/
def ratMax (a b : ℚ) : ℚ := if a ≤ b then b else a

theorem ratMin_le_right (a b : ℚ) : ratMin a b ≤ b := by
  unfold ratMin
  split
  · assumption
  · exact le_refl b

theorem le_ratMin {a b c : ℚ} (h1 : c ≤ a) (h2 : c ≤ b) : c ≤ ratMin a b := by
  unfold ratMin
  split
  · exact h1
  · exact h2

theorem le_ratMax_right (a b : ℚ) : b ≤ ratMax a b := by
  unfold ratMax
  split
  · exact le_refl b
  · exact le_of_lt (lt_of_not_le (by assumption))

theorem ratMax_le {a b c : ℚ} (h1 : a ≤ c) (h2 : b ≤ c) : ratMax a b ≤ c := by
  unfold ratMax
  split
  · exact h2
  · exact h1

structure WeightRow where
  weight : ℚ
  total_uses : ℕ
  successes : ℕ
  last_used : ℕ
deriving DecidableEq, Repr

abbrev WeightTable : Type := List (String × WeightRow)

def update_tool_weight (tool_id : String) (success : Bool) (now : ℕ)
    (t : WeightTable) : WeightTable :=
  match lookupKey t tool_id with
  | none => t ++ [(tool_id, ⟨1, 1, if success then 1 else 0, now⟩)]
  | some r =>
      let w : ℚ := if success then ratMin (r.weight + 1/10) 2 else ratMax (r.weight - 1/10) (1/10)
      setKey t tool_id ⟨w, r.total_uses + 1, r.successes + (if success then 1 else 0), now⟩

/-- One row of the `sessions` table (the id is the association-list key). -/
structure SessionRow where
  tool_calls : ℕ
  successes : ℕ
  failures : ℕ
deriving DecidableEq, Repr

/-- One row of the append-only `tool_usage` table. -/
structure ToolUsageRecord where
  session_id : String
  tool_id : String
  need : String
  success : Bool
  notes : String
  timestamp : ℕ
deriving DecidableEq, Repr

structure BrainDB where
  sessions : List (String × SessionRow)
  usage : List ToolUsageRecord
  weights : WeightTable
deriving DecidableEq, Repr

/-- The session-counter bump performed by the two `UPDATE sessions ...`
statements in `log_tool_use`; an UPDATE on a missing id changes nothing. -/
def bumpSession (success : Bool) (s : SessionRow) : SessionRow :=
  if success then ⟨s.tool_calls + 1, s.successes + 1, s.failures⟩
  else ⟨s.tool_calls + 1, s.successes, s.failures + 1⟩

def updateSessionRow (l : List (String × SessionRow)) (sid : String) (success : Bool) :
    List (String × SessionRow) :=
  l.map (fun p => if p.1 = sid then (p.1, bumpSession success p.2) else p)

/-- `log_tool_use`: append the usage fact, bump the session counters, then
update the learning weight (the Memory Core mirror write is best-effort
and leaves the local state unchanged, so it is absent from the model). -/
def log_tool_use (session_id tool_id need : String) (success : Bool) (notes : String)
    (now : ℕ) (db : BrainDB) : BrainDB :=
  { sessions := updateSessionRow db.sessions session_id success
    usage := db.usage ++ [⟨session_id, tool_id, need, success, notes, now⟩]
    weights := update_tool_weight tool_id success now db.weights }

/-! ### Weighted ranking (`get_weighted_tool_ranking`) -/

/-- One element of the list returned by `get_weighted_tool_ranking`. -/
structure RankedTool where
  tool_id : String
  weight : ℚ
  uses : ℕ
  success_rate : ℚ
deriving DecidableEq, Repr

/-- The per-id record built inside the loop of `get_weighted_tool_ranking`:
a stored row yields its weight and `successes / total_uses` (0.5 when
`total_uses = 0`), an absent id yields the neutral `weight 1.0`,
`uses 0`, `success_rate 0.5`. -/
def rankedEntry (t : WeightTable) (tool_id : String) : RankedTool :=
  match lookupKey t tool_id with
  | some r =>
      ⟨tool_id, r.weight, r.total_uses,
        if 0 < r.total_uses then (r.successes : ℚ) / (r.total_uses : ℚ) else 1/2⟩
  | none => ⟨tool_id, 1, 0, 1/2⟩

/-- The compound score `x["weight"] * x["success_rate"]` used as sort key. -/
def rankScore (e : RankedTool) : ℚ := e.weight * e.success_rate

/-- `get_weighted_tool_ranking`: build an entry per requested id, then
`ranked.sort(key=lambda x: x["weight"] * x["success_rate"], reverse=True)`. -/
def get_weighted_tool_ranking (t : WeightTable) (tool_ids : List String) : List RankedTool :=
  sortByKeyDesc rankScore (tool_ids.map (rankedEntry t))

/-! ### Claims about the weight store -/

/-- The bounded-weight invariant of the `tool_weights` table. -/
def WeightInv (t : WeightTable) : Prop :=
  ∀ p ∈ t, 1/10 ≤ p.2.weight ∧ p.2.weight ≤ 2

theorem weightInv_update (tool_id : String) (success : Bool) (now : ℕ)
    {t : WeightTable} (h : WeightInv t) :
    WeightInv (update_tool_weight tool_id success now t) := by
  unfold update_tool_weight
  cases hl : lookupKey t tool_id with
  | none =>
    intro p hp
    rcases mem_append.mp hp with h1 | h2
    · exact h p h1
    · have hp2 : p = (tool_id, ⟨1, 1, if success then 1 else 0, now⟩) := by simpa using h2
      rw [hp2]
      constructor <;> norm_num
  | some r =>
    intro p hp
    rcases mem_setKey hp with h1 | h2
    · have hr := h _ (mem_of_lookupKey_eq_some hl)
      rw [h1]
      cases success with
      | true =>
        simp only [if_true]
        constructor
        · exact le_ratMin (by linarith [hr.1]) (by norm_num)
        · exact ratMin_le_right _ _
      | false =>
        simp only [if_false]
        constructor
        · exact le_ratMax_right _ _
        · exact ratMax_le (by linarith [hr.2]) (by norm_num)
    · exact h p h2

/-- A finite sequence of outcome reports, each a tool id, a success flag
and a clock value, applied in order to the weight table. -/
def applyOutcomes (evs : List (String × Bool × ℕ)) (t : WeightTable) : WeightTable :=
  evs.foldl (fun acc e => update_tool_weight e.1 e.2.1 e.2.2 acc) t

theorem weightInv_applyOutcomes (evs : List (String × Bool × ℕ))
    {t : WeightTable} (h : WeightInv t) : WeightInv (applyOutcomes evs t) := by
  induction evs generalizing t with
  | nil => exact h
  | cons e rest ih => exact ih (weightInv_update e.1 e.2.1 e.2.2 h)

/-- C2: for every tool id and every finite sequence of outcome reports
(any mix of success and failure flags, in any order, starting from an
empty table), every weight stored in the resulting table lies in the
closed interval [0.1, 2.0]. -/
theorem c2_weight_bounded (evs : List (String × Bool × ℕ)) (tool_id : String)
    (r : WeightRow) (h : lookupKey (applyOutcomes evs []) tool_id = some r) :
    1/10 ≤ r.weight ∧ r.weight ≤ 2 :=
  weightInv_applyOutcomes evs (fun p hp => absurd hp (not_mem_nil p)) _
    (mem_of_lookupKey_eq_some h)

/-- Witness for C2 at the concrete one-report sequence `[("a", success, 0)]`. -/
theorem c2_weight_bounded_witness :
    1/10 ≤ (⟨1, 1, 1, 0⟩ : WeightRow).weight ∧ (⟨1, 1, 1, 0⟩ : WeightRow).weight ≤ 2 :=
  c2_weight_bounded [("a", true, 0)] "a" ⟨1, 1, 1, 0⟩ (by decide)

/-- C10: the very first outcome report for an absent tool id creates its
row with weight exactly 1.0, total_uses 1, and successes 1 or 0 according
to the success flag; the ±0.1 adjustment is not applied to this creating
report. -/
theorem c10_first_report_neutral_weight (tool_id : String) (success : Bool) (now : ℕ)
    (t : WeightTable) (h : lookupKey t tool_id = none) :
    lookupKey (update_tool_weight tool_id success now t) tool_id =
      some ⟨1, 1, if success then 1 else 0, now⟩ := by
  unfold update_tool_weight
  rw [h, lookupKey_append_of_none _ h]
  simp [lookupKey]

/-- Witness for C10: a first failure report on an empty table creates the
row `⟨1.0, 1, 0, 7⟩`. -/
theorem c10_first_report_neutral_weight_witness :
    lookupKey (update_tool_weight "dli_router" false 7 []) "dli_router" =
      some ⟨1, 1, 0, 7⟩ := by
  have h := c10_first_report_neutral_weight "dli_router" false 7 [] rfl
  simpa using h

/-! ### The C1 scenario: 3 successes then 1 failure for a fresh tool id,
reported through `log_tool_use`. -/

def c1_db : BrainDB :=
  log_tool_use "s1" "T1" "export docx" false "" 4
    (log_tool_use "s1" "T1" "export docx" true "" 3
      (log_tool_use "s1" "T1" "export docx" true "" 2
        (log_tool_use "s1" "T1" "export docx" true "" 1
          ⟨[("s1", ⟨0, 0, 0⟩)], [], []⟩)))

/-- C1 counterexample: after 3 successes and 1 failure for the fresh tool
id `T1`, the stored weight is 1.1, not the claimed
clamp(1.0+0.1+0.1+0.1-0.1) = 1.2 — the creating report inserts the row at
the neutral weight 1.0 without applying +0.1. -/
theorem c1_weight_after_three_successes_one_failure_ne_spec :
    (lookupKey c1_db.weights "T1").map WeightRow.weight = some (11/10) ∧
      (lookupKey c1_db.weights "T1").map WeightRow.weight ≠ some (12/10) := by
  constructor <;>
    norm_num [c1_db, log_tool_use, update_tool_weight, lookupKey, setKey,
      updateSessionRow, bumpSession, ratMin, ratMax]

/-- C1 amended: after 3 successes and 1 failure for the fresh tool id
`T1`, the stored weight is clamp(1.0+0.1+0.1-0.1) = 1.1 (the creating
success leaves the neutral 1.0 unadjusted) and the success rate
successes/total_uses is 3/4 = 0.75, as exposed by
`get_weighted_tool_ranking`. -/
theorem c1_amended_weight_and_success_rate :
    get_weighted_tool_ranking c1_db.weights ["T1"] =
      [⟨"T1", 11/10, 4, 3/4⟩] := by
  norm_num [c1_db, log_tool_use, update_tool_weight, lookupKey, setKey,
    updateSessionRow, bumpSession, ratMin, ratMax, get_weighted_tool_ranking,
    sortByKeyDesc, rankedEntry]

/-- C6: the ranking computes `weight * success_rate` per id (with the
neutral defaults `weight 1.0`, `success_rate 0.5` for ids absent from the
table, captured by the last conjunct), returns a permutation of the
per-id entries sorted descending by that product, and is stable: for
each product value the entries carrying it keep their input order, so
two calls with the same stored weights and the same input order yield
identical output order. -/
theorem c6_ranking_sorted_stable (t : WeightTable) (tool_ids : List String) :
    get_weighted_tool_ranking t tool_ids ~ tool_ids.map (rankedEntry t)
    ∧ List.Sorted (keyDescRel rankScore) (get_weighted_tool_ranking t tool_ids)
    ∧ (∀ s : ℚ, (get_weighted_tool_ranking t tool_ids).filter
          (fun e => decide (rankScore e = s)) =
        (tool_ids.map (rankedEntry t)).filter (fun e => decide (rankScore e = s)))
    ∧ (∀ tool_id : String, lookupKey t tool_id = none →
        rankedEntry t tool_id = ⟨tool_id, 1, 0, 1/2⟩) := by
  refine ⟨sortByKeyDesc_perm _ _, sortByKeyDesc_sorted _ _,
    fun s => sortByKeyDesc_filter_eq _ _ s, fun tool_id h => ?_⟩
  unfold rankedEntry
  rw [h]

/-- Witness for C6 at a concrete table and id list: an id absent from the
table gets the neutral entry. -/
theorem c6_ranking_sorted_stable_witness :
    rankedEntry [("memory_hub", ⟨3/2, 2, 1, 0⟩)] "pattern_finder" =
      ⟨"pattern_finder", 1, 0, 1/2⟩ :=
  (c6_ranking_sorted_stable [("memory_hub", ⟨3/2, 2, 1, 0⟩)]
    ["pattern_finder", "memory_hub"]).2.2.2 "pattern_finder" (by decide)

/-! ### Need matcher and profile classifier (`src/preflight.py`)

`CAPABILITY_MAP["capabilities"]` is a JSON object whose entries carry
`description`, `keywords` and `tool_id`; a loaded registry becomes a
list of capabilities in insertion order. -/

/-- Python's `str.lower()`, as a character-wise map. -/
def lowerChars (s : String) : List Char := s.data.map Char.toLower

/-- Python's substring test `needle in haystack`: `needle` occurs as a
contiguous run of `haystack` (the empty needle always occurs). -/
def isSubListOf (needle : List Char) : List Char → Bool
  | [] => needle.isEmpty
  | c :: rest => needle.isPrefixOf (c :: rest) || isSubListOf needle rest

structure Capability where
  cap_id : String
  description : String
  keywords : List String
  tool_id : String
deriving DecidableEq, Repr

abbrev CapabilityRegistry := List Capability

/-- The score of one capability in `extract_needs`:
`sum(1 for kw in cap_info["keywords"] if kw.lower() in text_lower)`. -/
def capScore (text : String) (c : Capability) : ℕ :=
  c.keywords.countP (fun kw => isSubListOf (lowerChars kw) (lowerChars text))

/-- One element of the list `extract_needs` returns. -/
structure NeedMatch where
  capability : String
  description : String
  tool_id : String
  score : ℕ
deriving DecidableEq, Repr

/-- The `needs` list built by the loop of `extract_needs`: one record per
capability whose score is positive, in registry insertion order. -/
def needsList (text : String) (reg : CapabilityRegistry) : List NeedMatch :=
  (reg.filter (fun c => decide (0 < capScore text c))).map
    (fun c => ⟨c.cap_id, c.description, c.tool_id, capScore text c⟩)

/-- `extract_needs`: score every capability, keep the positive ones,
`needs.sort(key=lambda x: x["score"], reverse=True)`, return `needs[:3]`. -/
def extract_needs (text : String) (reg : CapabilityRegistry) : List NeedMatch :=
  (sortByKeyDesc NeedMatch.score (needsList text reg)).take 3

/-- C7: `extract_needs` returns at most the top 3 matches, ordered by
descending keyword-hit count with ties kept in registry insertion order
(the sort is stable over the insertion-ordered `needsList`), and returns
the empty list whenever no keyword of any capability occurs in the text. -/
theorem c7_extract_needs_top3 (text : String) (reg : CapabilityRegistry) :
    (extract_needs text reg).length ≤ 3
    ∧ extract_needs text reg = (sortByKeyDesc NeedMatch.score (needsList text reg)).take 3
    ∧ List.Sorted (keyDescRel NeedMatch.score) (extract_needs text reg)
    ∧ sortByKeyDesc NeedMatch.score (needsList text reg) ~ needsList text reg
    ∧ (∀ s : ℕ, (sortByKeyDesc NeedMatch.score (needsList text reg)).filter
          (fun e => decide (e.score = s)) =
        (needsList text reg).filter (fun e => decide (e.score = s)))
    ∧ ((∀ c ∈ reg, capScore text c = 0) → extract_needs text reg = []) := by
  refine ⟨?_, rfl, ?_, sortByKeyDesc_perm _ _, fun s => sortByKeyDesc_filter_eq _ _ s, ?_⟩
  · exact (length_take 3 _).trans_le (min_le_left _ _)
  · exact ((sortByKeyDesc_sorted NeedMatch.score (needsList text reg)).sublist
      (take_sublist _ _))
  · intro h
    have hfil : reg.filter (fun c => decide (0 < capScore text c)) = [] := by
      rw [filter_eq_nil_iff]
      intro c hc
      simp [h c hc]
    unfold extract_needs needsList
    rw [hfil]
    rfl

/-- Witness for C7: on the empty input text and a concrete registry with
nonempty keywords, `extract_needs` returns the empty list. -/
theorem c7_extract_needs_top3_witness :
    extract_needs ""
      [⟨"export_docx", "Export to DOCX", ["export", "docx"], "export_console"⟩,
       ⟨"capture_session", "Capture a session", ["capture", "session"], "memory_hub"⟩] =
      [] :=
  (c7_extract_needs_top3 ""
    [⟨"export_docx", "Export to DOCX", ["export", "docx"], "export_console"⟩,
     ⟨"capture_session", "Capture a session", ["capture", "session"], "memory_hub"⟩]).2.2.2.2.2
    (by decide)

/-! ### `detect_mistral_profile` -/

/-- `MISTRAL_PROFILE_TRIGGERS`, in the dict's insertion order. -/
def mistral_profile_triggers : List (String × List String) :=
  [("code",
    ["code", "coding", "script", "python", "javascript", "typescript",
     "function", "refactor", "implement", "write a", "create a",
     "goose", "mcp", "infrastructure", "cli", "api"]),
   ("reasoning",
    ["reason", "reasoning", "think", "strategy", "evaluate", "analyze",
     "triage", "complex", "multi-step", "pattern", "decide", "compare",
     "tradeoff", "pros and cons", "should i", "which is better"]),
   ("math",
    ["math", "calculate", "numeric", "metrics", "finance", "ops",
     "table", "numbers", "statistics", "percentage", "ratio",
     "compound", "interest", "roi", "budget"]),
   ("general",
    ["summarize", "summary", "draft", "explain", "describe"])]

/-- The `scores` dict of `detect_mistral_profile`: per profile, the count
of triggers occurring in the lowered text, keeping only positive scores,
in dict insertion order.  The trigger strings themselves are used
unlowered, exactly as in the source. -/
def profileScores (text : String) : List (String × ℕ) :=
  mistral_profile_triggers.filterMap (fun pt =>
    let s := pt.2.countP (fun trig => isSubListOf trig.data (lowerChars text))
    if 0 < s then some (pt.1, s) else none)

/-- The Python sort key `lambda x: (-x[1], x[0] != "general")`. -/
def profKey (p : String × ℕ) : ℤ × Bool := (-(p.2 : ℤ), decide (p.1 ≠ "general"))

/-- Lexicographic comparison of the key tuples, with `false < true` on
booleans, exactly the order Python's tuple comparison uses. -/
def lexLeZB (u v : ℤ × Bool) : Bool :=
  decide (u.1 < v.1) || (decide (u.1 = v.1) && (!u.2 || v.2))

instance : DecidableRel (fun a b : String × ℕ => lexLeZB (profKey a) (profKey b) = true) :=
  fun _ _ => instDecidableEqBool _ true

/-- `detect_mistral_profile`: `None` when no trigger matched, else the
first profile of the scores list sorted ascending (stably) by the key
`(-score, profile != "general")`. -/
def detect_mistral_profile (text : String) : Option String :=
  let scores := profileScores text
  if scores.isEmpty then none
  else ((scores.insertionSort
    (fun a b => lexLeZB (profKey a) (profKey b) = true)).head?).map Prod.fst

/-- C5 failing input: on `"summarize this code"` the specialized profile
`code` and the generic profile `general` tie with score 1, and the
classifier returns `general`, not the specialized group — the boolean
`x[0] != "general"` sorts `general` (False) before specialists (True) on
equal scores, contradicting both the claim and the source comment
`prefer specialists over general`. -/
theorem c5_tie_returns_general_bug :
    profileScores "summarize this code" = [("code", 1), ("general", 1)]
    ∧ detect_mistral_profile "summarize this code" = some "general"
    ∧ detect_mistral_profile "summarize this code" ≠ some "code" := by
  refine ⟨?_, ?_, ?_⟩ <;> decide

/-! ### Conversation hub client (`src/backend_8825/conversation_hub_client.py`)

One JSON file per conversation plus a separate `index.json`; both become
fields of `HubState`.  Timestamps are abstract `ℕ` clock values.  An
index entry is a JSON object; `list_conversations` reads its `owner` key
with `.get`, which yields `None` when absent, so the entry carries
`owner : Option String` — `_update_index` never writes that key, hence
entries it creates have `owner = none`. -/

structure IndexEntry where
  id : String
  topic : String
  owner : Option String
  surfaces : List String
  created_at : ℕ
  updated_at : ℕ
  message_count : ℕ
  status : String
deriving DecidableEq, Repr

structure Artifact where
  atype : String
  id : String
  title : Option String
  confidence : ℚ
  linked_at : ℕ
deriving DecidableEq, Repr

structure Message where
  role : String
  content : String
  surface : String
  mode : Option String
  timestamp : ℕ
deriving DecidableEq, Repr

structure Conversation where
  id : String
  topic : String
  owner : String
  surfaces : List String
  tags : List String
  messages : List Message
  artifacts : List Artifact
  created_at : ℕ
  updated_at : ℕ
  status : String
  message_count : ℕ
deriving DecidableEq, Repr

structure HubState where
  convs : List (String × Conversation)
  index : List IndexEntry
deriving DecidableEq, Repr

/-- The fresh index entry `_update_index` appends when the id is absent.
The code writes no `owner` key, so the entry's owner is `none`. -/
def newIndexEntry (cid topic : String) (surfaces : List String) (t : ℕ) : IndexEntry :=
  ⟨cid, topic, none, surfaces, t, t, 0, "active"⟩

/-- `_update_index`: find the entry with the given id and refresh its
`updated_at` and surface set (`list(set(old + new))` — modelled as the
first-occurrence deduplication of the concatenation, which has the same
membership), or append a fresh `"active"` entry.  Note that `status` of
an existing entry is never touched. -/
def update_index (cid topic : String) (surfaces : List String) (t : ℕ) :
    List IndexEntry → List IndexEntry
  | [] => [newIndexEntry cid topic surfaces t]
  | e :: es =>
      if e.id = cid then
        { e with updated_at := t, surfaces := (e.surfaces ++ surfaces).dedup } :: es
      else e :: update_index cid topic surfaces t es

/-- `create_conversation` (the fresh id and the clock are inputs of the
model; the code derives them from the date, owner and a UUID). -/
def create_conversation (topic owner surface : String) (tags : List String)
    (cid : String) (t : ℕ) (s : HubState) : HubState :=
  let conv : Conversation := ⟨cid, topic, owner, [surface], tags, [], [], t, t, "active", 0⟩
  { convs := setKey s.convs cid conv
    index := update_index cid topic [surface] t s.index }

def get_conversation (s : HubState) (cid : String) : Option Conversation :=
  lookupKey s.convs cid

/-- `close_conversation`: set the conversation record's status to
`"closed"` and bump its `updated_at`, then rewrite the record's file.
The index is NOT updated, exactly as in the source. -/
def close_conversation (cid : String) (t : ℕ) (s : HubState) : Bool × HubState :=
  match lookupKey s.convs cid with
  | none => (false, s)
  | some c =>
      let c2 : Conversation := { c with status := "closed", updated_at := t }
      (true, { s with convs := setKey s.convs cid c2 })

/-- `link_artifact`: `NotFound` yields failure; a duplicate artifact id
reports success without touching the state; otherwise the artifact is
appended and the record rewritten. -/
def link_artifact (cid atype aid : String) (title : Option String) (confidence : ℚ)
    (t : ℕ) (s : HubState) : Bool × HubState :=
  match lookupKey s.convs cid with
  | none => (false, s)
  | some c =>
      if c.artifacts.any (fun a => decide (a.id = aid)) then (true, s)
      else
        let c2 : Conversation :=
          { c with artifacts := c.artifacts ++ [⟨atype, aid, title, confidence, t⟩],
                   updated_at := t }
        (true, { s with convs := setKey s.convs cid c2 })

/-- The filter of the `list_conversations` loop, continue-conditions
turned into one keep-condition.  Python truthiness: an empty-string
`status` or an empty-string/absent optional argument disables that
filter. -/
def passesFilters (owner surface : Option String) (status : String) (e : IndexEntry) : Bool :=
  (decide (status = "") || decide (e.status = status)) &&
  ((match owner with | none => true | some u => decide (u = "") || decide (e.owner = some u))) &&
  ((match surface with
    | none => true
    | some sf => decide (sf = "") || e.surfaces.contains sf))

/-- `list_conversations`: keep the index entries passing every provided
filter, then `sorted(results, key=lambda x: x.get("updated_at", ""), reverse=True)`. -/
def list_conversations (idx : List IndexEntry) (owner surface : Option String)
    (status : String) : List IndexEntry :=
  sortByKeyDesc IndexEntry.updated_at (idx.filter (passesFilters owner surface status))

/-- The claim's AND-semantics predicate: status matches, owner matches
when given, surface is a member of the entry's surfaces when given. -/
def satisfiesFilters (owner surface : Option String) (status : String) (e : IndexEntry) : Bool :=
  decide (e.status = status) &&
  ((match owner with | none => true | some u => decide (e.owner = some u))) &&
  ((match surface with | none => true | some sf => e.surfaces.contains sf))

/-! ### Claims about the hub -/

/-- The state after creating conversation `c1` at time 1 and closing it
at time 2, starting from an empty hub. -/
def c3_closed : Bool × HubState :=
  close_conversation "c1" 2
    (create_conversation "demo topic" "alice" "editor" [] "c1" 1 ⟨[], []⟩)

/-- C3 evaluated at the failing input: after a successful
`close_conversation`, the conversation record is `"closed"`, yet listing
with status `"active"` still includes the conversation and listing with
status `"closed"` returns nothing — `close_conversation` rewrites only
the conversation file and never the index entry whose `status` the
listing filters on. -/
theorem c3_close_not_reflected_in_listing :
    c3_closed.1 = true
    ∧ (get_conversation c3_closed.2 "c1").map Conversation.status = some "closed"
    ∧ (list_conversations c3_closed.2.index none none "active").map IndexEntry.id = ["c1"]
    ∧ list_conversations c3_closed.2.index none none "closed" = [] := by
  refine ⟨?_, ?_, ?_, ?_⟩ <;> decide

/-- C4: with genuinely provided filters (Python truthiness: a non-empty
status string, and optional arguments that are absent or non-empty),
`list_conversations` returns exactly the index entries satisfying the
conjunction of the provided filters, sorted by `updated_at` descending. -/
theorem c4_list_conversations_filter_sort (idx : List IndexEntry)
    (owner surface : Option String) (status : String)
    (hst : status ≠ "") (how : owner ≠ some "") (hsf : surface ≠ some "") :
    list_conversations idx owner surface status ~
      idx.filter (satisfiesFilters owner surface status)
    ∧ List.Sorted (keyDescRel IndexEntry.updated_at)
        (list_conversations idx owner surface status) := by
  have hpred : ∀ e ∈ idx,
      passesFilters owner surface status e = satisfiesFilters owner surface status e := by
    intro e _
    cases owner with
    | none =>
      cases surface with
      | none =>
        simp [passesFilters, satisfiesFilters, decide_eq_false hst]
      | some sf =>
        have hs : sf ≠ "" := fun h => hsf (by rw [h])
        simp [passesFilters, satisfiesFilters, decide_eq_false hst, decide_eq_false hs]
    | some u =>
      have hu : u ≠ "" := fun h => how (by rw [h])
      cases surface with
      | none =>
        simp [passesFilters, satisfiesFilters, decide_eq_false hst, decide_eq_false hu]
      | some sf =>
        have hs : sf ≠ "" := fun h => hsf (by rw [h])
        simp [passesFilters, satisfiesFilters, decide_eq_false hst, decide_eq_false hu,
          decide_eq_false hs]
  have hfil : idx.filter (passesFilters owner surface status) =
      idx.filter (satisfiesFilters owner surface status) := filter_congr hpred
  constructor
  · unfold list_conversations
    rw [hfil]
    exact sortByKeyDesc_perm _ _
  · exact sortByKeyDesc_sorted _ _

/-- Witness for C4 at a concrete three-entry index with an owner filter
and the default `"active"` status: exactly the matching entry survives. -/
theorem c4_list_conversations_filter_sort_witness :
    list_conversations
      [⟨"c1", "t1", some "alice", ["editor"], 1, 5, 0, "active"⟩,
       ⟨"c2", "t2", none, ["editor"], 2, 9, 0, "active"⟩,
       ⟨"c3", "t3", some "alice", ["browser"], 3, 7, 0, "closed"⟩]
      (some "alice") none "active" ~
    List.filter (satisfiesFilters (some "alice") none "active")
      [⟨"c1", "t1", some "alice", ["editor"], 1, 5, 0, "active"⟩,
       ⟨"c2", "t2", none, ["editor"], 2, 9, 0, "active"⟩,
       ⟨"c3", "t3", some "alice", ["browser"], 3, 7, 0, "closed"⟩] :=
  (c4_list_conversations_filter_sort _ (some "alice") none "active"
    (by decide) (by decide) (by decide)).1

/-- The conversation after appending one artifact, as built by
`link_artifact`. -/
def linkedConv (c : Conversation) (atype aid : String) (title : Option String)
    (conf : ℚ) (t : ℕ) : Conversation :=
  { c with artifacts := c.artifacts ++ [⟨atype, aid, title, conf, t⟩], updated_at := t }

theorem link_artifact_eval (s : HubState) (cid atype aid : String)
    (title : Option String) (conf : ℚ) (t : ℕ) (c : Conversation)
    (hc : lookupKey s.convs cid = some c) :
    link_artifact cid atype aid title conf t s =
      if c.artifacts.any (fun a => decide (a.id = aid)) = true then (true, s)
      else (true, { s with convs := setKey s.convs cid (linkedConv c atype aid title conf t) }) := by
  unfold link_artifact linkedConv
  rw [hc]

/-- C8: re-linking the same artifact id (any metadata) on an existing
conversation whose artifact list holds at most one entry with that id —
the invariant the API maintains, since lists start empty and linking
deduplicates — reports success, leaves the state of the first call
untouched, and the conversation holds exactly one artifact with that id. -/
theorem c8_link_artifact_idempotent
    (s : HubState) (cid atype aid : String) (title : Option String) (conf : ℚ) (t1 : ℕ)
    (atype2 : String) (title2 : Option String) (conf2 : ℚ) (t2 : ℕ)
    (c : Conversation) (hc : lookupKey s.convs cid = some c)
    (hcount : c.artifacts.countP (fun a => decide (a.id = aid)) ≤ 1) :
    (link_artifact cid atype2 aid title2 conf2 t2
        (link_artifact cid atype aid title conf t1 s).2).1 = true
    ∧ (link_artifact cid atype2 aid title2 conf2 t2
        (link_artifact cid atype aid title conf t1 s).2).2 =
        (link_artifact cid atype aid title conf t1 s).2
    ∧ ∃ c2 : Conversation,
        lookupKey (link_artifact cid atype aid title conf t1 s).2.convs cid = some c2
        ∧ c2.artifacts.countP (fun a => decide (a.id = aid)) = 1 := by
  by_cases hdup : c.artifacts.any (fun a => decide (a.id = aid)) = true
  · have hfirst : link_artifact cid atype aid title conf t1 s = (true, s) := by
      rw [link_artifact_eval s cid atype aid title conf t1 c hc, if_pos hdup]
    have hsecond : link_artifact cid atype2 aid title2 conf2 t2 s = (true, s) := by
      rw [link_artifact_eval s cid atype2 aid title2 conf2 t2 c hc, if_pos hdup]
    have hcnt1 : c.artifacts.countP (fun a => decide (a.id = aid)) = 1 := by
      obtain ⟨a, ha, hpa⟩ := (any_eq_true).mp hdup
      exact Nat.le_antisymm hcount (countP_pos_iff.mpr ⟨a, ha, hpa⟩)
    rw [hfirst]
    rw [hsecond]
    exact ⟨rfl, rfl, c, hc, hcnt1⟩
  · have hcnt0 : c.artifacts.countP (fun a => decide (a.id = aid)) = 0 := by
      rw [countP_eq_zero]
      intro a ha hpa
      exact hdup (any_eq_true.mpr ⟨a, ha, hpa⟩)
    have hfirst : link_artifact cid atype aid title conf t1 s =
        (true, { s with convs := setKey s.convs cid (linkedConv c atype aid title conf t1) }) := by
      rw [link_artifact_eval s cid atype aid title conf t1 c hc, if_neg hdup]
    rw [hfirst]
    have hlook2 : lookupKey (setKey s.convs cid (linkedConv c atype aid title conf t1)) cid =
        some (linkedConv c atype aid title conf t1) := lookup_setKey _ _ _
    have hany2 : (linkedConv c atype aid title conf t1).artifacts.any
        (fun a => decide (a.id = aid)) = true := by
      simp [linkedConv]
    have hcnt2 : (linkedConv c atype aid title conf t1).artifacts.countP
        (fun a => decide (a.id = aid)) = 1 := by
      simp [linkedConv, countP_append, hcnt0]
    have hsecond : link_artifact cid atype2 aid title2 conf2 t2
        ({ s with convs := setKey s.convs cid (linkedConv c atype aid title conf t1) }) =
        (true, { s with convs := setKey s.convs cid (linkedConv c atype aid title conf t1) }) := by
      rw [link_artifact_eval _ cid atype2 aid title2 conf2 t2 _ hlook2, if_pos hany2]
    rw [hsecond]
    exact ⟨rfl, rfl, _, hlook2, hcnt2⟩

/-- Witness for C8: fresh conversation, linking artifact `a1` twice; the
second call reports success. -/
theorem c8_link_artifact_idempotent_witness :
    (link_artifact "c1" "knowledge" "a1" none 1 4
      (link_artifact "c1" "knowledge" "a1" none 1 3
        (create_conversation "demo" "alice" "editor" [] "c1" 1 ⟨[], []⟩)).2).1 = true :=
  (c8_link_artifact_idempotent
    (create_conversation "demo" "alice" "editor" [] "c1" 1 ⟨[], []⟩)
    "c1" "knowledge" "a1" none 1 3 "knowledge" none 1 4
    ⟨"c1", "demo", "alice", ["editor"], [], [], [], 1, 1, "active", 0⟩
    (by decide) (by decide)).1

/-! ### SSE delivery loop (`src/jh_brain_sse_server.py`, `event_stream`)

The generator registers a fresh queue under its connection id, yields two
initialization messages, then loops: each iteration either dequeues a
message (yield a payload), hits the 30-second wait timeout
(`queue.Empty` — yield `": keepalive"`), or terminates because the
client disconnected / an exception escaped; the `finally` block pops the
queue from `connections` on every terminating path.  A run is embedded
as the finite trace of iteration events the loop consumed; a trace with
no terminating event leaves the loop alive (still registered). -/

inductive LoopEvent where
  | got (m : String)
  | timeout
  | disconnect
  | error
deriving DecidableEq, Repr

inductive SseOut where
  | initialized
  | contextMsg
  | message (m : String)
  | keepalive
deriving DecidableEq, Repr

/-- The `while True` loop: outputs of the processed iterations, and
whether the loop terminated (hit a disconnect/exception event). -/
def event_stream_loop : List LoopEvent → List SseOut × Bool
  | [] => ([], false)
  | LoopEvent.got m :: rest =>
      let r := event_stream_loop rest
      (SseOut.message m :: r.1, r.2)
  | LoopEvent.timeout :: rest =>
      let r := event_stream_loop rest
      (SseOut.keepalive :: r.1, r.2)
  | LoopEvent.disconnect :: _ => ([], true)
  | LoopEvent.error :: _ => ([], true)

/-- The whole generator: register the fresh queue, yield the two
initialization messages, run the loop; the `finally` pop runs exactly
when the loop terminated. -/
def event_stream (cid : String) (events : List LoopEvent)
    (conns : List (String × List String)) : List SseOut × List (String × List String) :=
  let conns1 := setKey conns cid []
  let r := event_stream_loop events
  (SseOut.initialized :: SseOut.contextMsg :: r.1,
   if r.2 then eraseKey conns1 cid else conns1)

/-- The output of one non-terminating iteration. -/
def iterOut : LoopEvent → SseOut
  | LoopEvent.got m => SseOut.message m
  | _ => SseOut.keepalive

def nonTerminating : LoopEvent → Bool
  | LoopEvent.disconnect => false
  | LoopEvent.error => false
  | _ => true

theorem event_stream_loop_nonterm (events : List LoopEvent)
    (h : ∀ e ∈ events, nonTerminating e = true) :
    event_stream_loop events = (events.map iterOut, false) := by
  induction events with
  | nil => rfl
  | cons e rest ih =>
    have he := h e (mem_cons_self _ _)
    have hrest := ih (fun x hx => h x (mem_cons_of_mem _ hx))
    cases e with
    | got m => simp [event_stream_loop, iterOut, hrest]
    | timeout => simp [event_stream_loop, iterOut, hrest]
    | disconnect => simp [nonTerminating] at he
    | error => simp [nonTerminating] at he

/-- C9: a timeout iteration emits a keep-alive (never a payload) and does
not terminate the loop — a trace of queue reads and timeouts alone leaves
the loop running with its queue still registered — while any terminating
trace (client disconnect, exception), however it ends, leaves the
connection registry without the connection's queue. -/
theorem c9_delivery_loop_keepalive_cleanup (cid : String) (events : List LoopEvent)
    (conns : List (String × List String)) :
    ((event_stream_loop events).2 = true →
      lookupKey (event_stream cid events conns).2 cid = none)
    ∧ ((∀ e ∈ events, nonTerminating e = true) →
        (event_stream_loop events).2 = false
        ∧ (event_stream cid events conns).1 =
            SseOut.initialized :: SseOut.contextMsg :: events.map iterOut
        ∧ lookupKey (event_stream cid events conns).2 cid = some [])
    ∧ (∀ m : String, SseOut.keepalive ≠ SseOut.message m) := by
  refine ⟨?_, ?_, ?_⟩
  · intro hterm
    unfold event_stream
    simp only [hterm, if_true]
    exact lookup_eraseKey _ _
  · intro h
    have hloop := event_stream_loop_nonterm events h
    refine ⟨by rw [hloop], ?_, ?_⟩
    · unfold event_stream
      rw [hloop]
    · unfold event_stream
      rw [hloop]
      simp only [if_neg Bool.false_ne_true]
      exact lookup_setKey _ _ _
  · intro m h
    exact SseOut.noConfusion h

/-- Witness for C9: a timeout-then-disconnect trace leaves no queue
registered; a timeout-then-message trace yields a keep-alive then the
payload. -/
theorem c9_delivery_loop_keepalive_cleanup_witness :
    lookupKey (event_stream "conn1" [LoopEvent.timeout, LoopEvent.disconnect] []).2 "conn1" = none
    ∧ (event_stream "conn1" [LoopEvent.timeout, LoopEvent.got "result"] []).1 =
        [SseOut.initialized, SseOut.contextMsg, SseOut.keepalive, SseOut.message "result"] := by
  constructor
  · exact (c9_delivery_loop_keepalive_cleanup "conn1"
      [LoopEvent.timeout, LoopEvent.disconnect] []).1 (by decide)
  · have h := ((c9_delivery_loop_keepalive_cleanup "conn1"
      [LoopEvent.timeout, LoopEvent.got "result"] []).2.1 (by decide)).2.1
    simpa using h

end TgifBrain
